import Mathlib

/-!
Shallow embedding of the wev rendering engine core (src/style.rs, src/cssom.rs,
src/dom.rs, src/layout.rs) and verification of the specification claims.

Strings that the layout engine wraps are represented by their grapheme-cluster
sequences: a `Grapheme` carries the cluster's characters (`cs`, the bytes of the
`&str` slice in the source) and its display width `w` (the value returned by
`unicode_width`'s `grapheme.width()` in the source).  Rust byte indices into the
text correspond to positions in the grapheme list: every slice the source takes
lies on cluster boundaries, so a slice is a contiguous sublist of clusters.
Machine integers (`u16`, `u32`, `usize`) are modelled as `Nat`; none of the
verified claims depends on wrap-around behaviour.
-/

namespace Wev

/-- One grapheme cluster of a text: its characters and its display width
(`unicode_width`). -/
structure Grapheme where
  cs : List Char
  w : Nat
deriving DecidableEq, Repr

/-- The `UnicodeWidthStr::width` of a run of clusters: the sum of cluster widths. -/
def strWidth (gs : List Grapheme) : Nat :=
  (gs.map Grapheme.w).sum

/-- The character content of a run of clusters (the bytes of the corresponding
`&str` slice). -/
def strChars (gs : List Grapheme) : List Char :=
  (gs.map Grapheme.cs).flatten

/-- Loop body of `split_string_by_width` (src/layout.rs lines 74-85): `acc` is
the reversed current chunk (the clusters between `prev_index` and `curr_index`),
`curr` is `curr_width`.  On overflow the current chunk is closed and a new chunk
is started with exactly the overflowing cluster; at the end the remaining chunk
is pushed. -/
def splitGo (width : Nat) : List Grapheme → List Grapheme → Nat → List (List Grapheme)
  | [], acc, _ => [acc.reverse]
  | g :: gs, acc, curr =>
    if width < curr + g.w then
      acc.reverse :: splitGo width gs [g] g.w
    else
      splitGo width gs (g :: acc) (curr + g.w)

/-- The `split_string_by_width` (src/layout.rs lines 68-88): wrap `text` into lines
of display width at most `width`, the running width counter seeded at `offset`. -/
def split_string_by_width (text : List Grapheme) (width : Nat) (offset : Nat) :
    List (List Grapheme) :=
  splitGo width text [] offset

/-! ## DOM (src/dom.rs) -/

/-- The `Element` (src/dom.rs): tag name and attribute map.  The `AttrMap`
(`HashMap<String, String>`) is modelled as an association list with unique keys;
`get` returns the first binding. -/
structure Element where
  tag_name : String
  attributes : List (String × String)
deriving DecidableEq, Repr

/-- The `HashMap::get` on an attribute map. -/
def attrsGet (attrs : List (String × String)) (key : String) : Option String :=
  match attrs with
  | [] => none
  | (k, v) :: rest => if k = key then some v else attrsGet rest key

/-- The `Text` (src/dom.rs): character data, represented by its grapheme clusters. -/
structure TextData where
  data : List Grapheme
deriving DecidableEq, Repr

/-- The `NodeType` (src/dom.rs). -/
inductive NodeType where
  | element (e : Element)
  | text (t : TextData)
deriving DecidableEq, Repr

/-- The `Node` (src/dom.rs): a node type plus an ordered child list. -/
inductive Node where
  | mk (node_type : NodeType) (children : List Node)

/-- Accessor for `Node.node_type`. -/
def Node.node_type : Node → NodeType
  | .mk nt _ => nt

/-- Accessor for `Node.children`. -/
def Node.children : Node → List Node
  | .mk _ cs => cs

/-! ## CSSOM (src/cssom.rs) -/

/-- The `AttributeSelectorOp` (src/cssom.rs). -/
inductive AttributeSelectorOp where
  | eq
  | contain
deriving DecidableEq, Repr

/-- The `SimpleSelector` (src/cssom.rs). -/
inductive SimpleSelector where
  | universalSelector
  | typeSelector (tag_name : String)
  | attributeSelector (tag_name : String) (op : AttributeSelectorOp)
      (attr : String) (value : String)
  | classSelector (class_name : String)
deriving DecidableEq, Repr

/-- The `Selector` is an alias for `SimpleSelector` (src/cssom.rs line 33). -/
abbrev Selector := SimpleSelector

/-- The `CSSValue` (src/cssom.rs): currently only keywords. -/
inductive CSSValue where
  | keyword (s : String)
deriving DecidableEq, Repr

/-- The `Declaration` (src/cssom.rs). -/
structure Declaration where
  name : String
  value : CSSValue
deriving DecidableEq, Repr

/-- The `Rule` (src/cssom.rs): a comma-separated selector list plus declarations. -/
structure Rule where
  selectors : List Selector
  declarations : List Declaration
deriving DecidableEq, Repr

/-- The `Stylesheet` (src/cssom.rs). -/
structure Stylesheet where
  rules : List Rule
deriving DecidableEq, Repr

/-- The `char::is_ascii_whitespace` (Rust). -/
def isAsciiWhitespace (c : Char) : Bool :=
  c = ' ' || c = '\t' || c = '\n' || c = '\r' || c = Char.ofNat 12

/-- The `str::split_ascii_whitespace` (Rust): split on ASCII whitespace, dropping
empty pieces. -/
def splitAsciiWhitespace (s : String) : List String :=
  (s.split (fun c => isAsciiWhitespace c)).filter (fun t => t ≠ "")

/-- The `SimpleSelector::matches` (src/cssom.rs lines 57-93). -/
def SimpleSelector.matches (s : SimpleSelector) (n : Node) : Bool :=
  match s with
  | .universalSelector => true
  | .typeSelector tag_name =>
    match n.node_type with
    | .element e => e.tag_name = tag_name
    | _ => false
  | .attributeSelector tag_name op attr value =>
    match n.node_type with
    | .element e =>
      e.tag_name = tag_name &&
        match op with
        | .eq => attrsGet e.attributes attr = some value
        | .contain =>
          match attrsGet e.attributes attr with
          | some value_ => (splitAsciiWhitespace value_).any (fun v => v = value)
          | none => false
    | _ => false
  | .classSelector class_name =>
    match n.node_type with
    | .element e => attrsGet e.attributes "class" = some class_name
    | _ => false

/-- The `SimpleSelector::specificity` (src/cssom.rs lines 95-101). -/
def SimpleSelector.specificity : SimpleSelector → Nat
  | .universalSelector => 0
  | .typeSelector _ => 1
  | .attributeSelector _ _ _ _ => 10
  | .classSelector _ => 10

/-- The `Rule::matches` (src/cssom.rs lines 24-26): true iff any selector matches. -/
def Rule.matches (r : Rule) (n : Node) : Bool :=
  r.selectors.any (fun s => s.matches n)

/-! ## Style resolution (src/style.rs) -/

/-- The working property map of `to_styled_node`
(`HashMap<String, (u32, CSSValue)>`), modelled as an association list with
unique keys. -/
abbrev PropMap := List (String × (Nat × CSSValue))

/-- The `HashMap::get` on the working property map. -/
def propsGet (m : PropMap) (key : String) : Option (Nat × CSSValue) :=
  match m with
  | [] => none
  | (k, v) :: rest => if k = key then some v else propsGet rest key

/-- The `HashMap::insert` on the working property map: replace the existing binding
for `key`, or add one. -/
def propsInsert (m : PropMap) (key : String) (v : Nat × CSSValue) : PropMap :=
  match m with
  | [] => [(key, v)]
  | (k, v') :: rest =>
    if k = key then (key, v) :: rest else (k, v') :: propsInsert rest key v

/-- Body of the inner loop of `to_styled_node` (src/style.rs lines 26-39): one
paired (selector, declaration) updates the property map.  An existing entry is
overwritten iff its specificity is `≤` the candidate selector's. -/
def applyDecl (props : PropMap) (sel : Selector) (decl : Declaration) : PropMap :=
  match propsGet props decl.name with
  | some (spec, _) =>
    if spec ≤ sel.specificity then
      propsInsert props decl.name (sel.specificity, decl.value)
    else
      props
  | none => propsInsert props decl.name (sel.specificity, decl.value)

/-- One matched rule's contribution (src/style.rs lines 21-39): the selector
list and declaration list are paired positionally by `zip`, which iterates only
to the shorter length. -/
def applyRule (props : PropMap) (rule : Rule) : PropMap :=
  (rule.selectors.zip rule.declarations).foldl
    (fun p sd => applyDecl p sd.1 sd.2) props

/-- The property map after scanning all matching rules in document order
(src/style.rs lines 20-40). -/
def matchedProps (node : Node) (ss : Stylesheet) : PropMap :=
  (ss.rules.filter (fun r => r.matches node)).foldl applyRule []

/-- Tag names whose user-agent default display is `none`
(src/style.rs lines 45-47). -/
def displayNoneTags : List String :=
  ["area", "base", "basefont", "datalist", "head", "link", "meta", "noembed",
   "noframes", "param", "rp", "script", "style", "template", "title"]

/-- Fill in the user-agent `display` default when unset
(src/style.rs lines 42-56).  Text nodes receive no default. -/
def fillDisplay (node : Node) (props : PropMap) : PropMap :=
  match propsGet props "display" with
  | some _ => props
  | none =>
    match node.node_type with
    | .element e =>
      if displayNoneTags.contains e.tag_name then
        propsInsert props "display" (0, .keyword "none")
      else
        propsInsert props "display" (0, .keyword "block")
    | .text _ => props

/-- Fill in the user-agent `font-weight` default when unset
(src/style.rs lines 58-73). -/
def fillFontWeight (node : Node) (props : PropMap) : PropMap :=
  match propsGet props "font-weight" with
  | some _ => props
  | none =>
    match node.node_type with
    | .element e =>
      if e.tag_name = "b" ∨ e.tag_name = "strong" then
        propsInsert props "font-weight" (0, .keyword "bold")
      else
        propsInsert props "font-weight" (0, .keyword "normal")
    | .text _ => props

/-- The fully resolved (specificity, value) map of one node: matched rules in
document order, then the two user-agent defaults (src/style.rs lines 18-73). -/
def resolvedProps (node : Node) (ss : Stylesheet) : PropMap :=
  fillFontWeight node (fillDisplay node (matchedProps node ss))

/-- The `StyledNode` (src/style.rs): node type, pruned styled children, and the
resolved properties with specificity metadata stripped. -/
inductive StyledNode where
  | mk (node_type : NodeType) (children : List StyledNode)
      (properties : List (String × CSSValue))

/-- Accessor for `StyledNode.node_type`. -/
def StyledNode.node_type : StyledNode → NodeType
  | .mk nt _ _ => nt

/-- Accessor for `StyledNode.children`. -/
def StyledNode.children : StyledNode → List StyledNode
  | .mk _ cs _ => cs

/-- Accessor for `StyledNode.properties`. -/
def StyledNode.properties : StyledNode → List (String × CSSValue)
  | .mk _ _ ps => ps

mutual

/-- The `to_styled_node` (src/style.rs lines 17-91): resolve one node's properties;
return `none` when the resolved `display` value is the keyword `none`,
otherwise resolve the children, dropping pruned ones. -/
def to_styled_node (node : Node) (ss : Stylesheet) : Option StyledNode :=
  match node with
  | .mk nt cs =>
    let properties := resolvedProps (.mk nt cs) ss
    if (propsGet properties "display").map Prod.snd = some (CSSValue.keyword "none") then
      none
    else
      some (.mk nt (to_styled_children cs ss)
        (properties.map (fun kv => (kv.1, kv.2.2))))

/-- The `filter_map` over the children in `to_styled_node`
(src/style.rs lines 79-83). -/
def to_styled_children (nodes : List Node) (ss : Stylesheet) : List StyledNode :=
  match nodes with
  | [] => []
  | n :: rest =>
    match to_styled_node n ss with
    | some s => s :: to_styled_children rest ss
    | none => to_styled_children rest ss

end

/-! ## Layout engine (src/layout.rs) -/

/-- The `ratatui::layout::Rect`: a rectangle in integer terminal columns/rows
(`u16` fields, modelled as `Nat`). -/
structure Rect where
  x : Nat
  y : Nat
  width : Nat
  height : Nat
deriving DecidableEq, Repr

/-- One line record of a `Texts` leaf (`Text<'a>` in src/layout.rs lines
23-27): the line's rectangle and the corresponding text slice. -/
structure TextLine where
  area : Rect
  data : List Grapheme
deriving DecidableEq, Repr

/-- The `LayoutObject` with its `LayoutObjectType` (src/layout.rs lines 11-21),
flattened into one inductive: either a block with child boxes or a text leaf
with line records. -/
inductive LayoutObject where
  | block (area : Rect) (children : List LayoutObject)
  | texts (area : Rect) (lines : List TextLine)

/-- The `area` field of a `LayoutObject`. -/
def LayoutObject.area : LayoutObject → Rect
  | .block a _ => a
  | .texts a _ => a

/-- The line records of a `Texts` leaf (empty for a block). -/
def LayoutObject.lines : LayoutObject → List TextLine
  | .block _ _ => []
  | .texts _ ls => ls

/-- The child boxes of a `Block` (empty for a text leaf). -/
def LayoutObject.childList : LayoutObject → List LayoutObject
  | .block _ cs => cs
  | .texts _ _ => []

/-- The `inline_node` (src/layout.rs lines 59-66): text nodes are inline; an
element is inline iff its resolved `display` property is the keyword
`inline`. -/
def inline_node (node : StyledNode) : Bool :=
  match node.node_type with
  | .element _ =>
    match node.properties.lookup "display" with
    | some (.keyword value) => value = "inline"
    | none => false
  | .text _ => true

/-- The line-record loop of `text_to_object` (src/layout.rs lines 119-131):
each chunk `d` becomes one line record at `x` and an incrementing row `y`, of
width `UnicodeWidthStr::width(d)` and height 1. -/
def textLoop (x : Nat) : Nat → List (List Grapheme) → List TextLine
  | _, [] => []
  | y, d :: ds => ⟨⟨x, y, strWidth d, 1⟩, d⟩ :: textLoop x (y + 1) ds

/-- The `text_to_object` (src/layout.rs lines 115-143).  The source's single loop
accumulates the line records, the row `y`, and `content_len`; here the line
records come from `textLoop` and `content_len` is the equal sum of the chunk
widths.  The bounding box is `{area.x, area.y, content_len, 1}`. -/
def text_to_object (text : List Grapheme) (area : Rect) (offset : Nat) :
    LayoutObject :=
  let chunks := split_string_by_width text area.width offset
  let texts := textLoop area.x area.y chunks
  let content_len := (chunks.map strWidth).sum
  .texts ⟨area.x, area.y, content_len, 1⟩ texts

/-- The mutable state of the child loop in `children_to_object`
(src/layout.rs lines 146-172). -/
structure ChildrenState where
  y : Nat
  height : Nat
  objects : List LayoutObject
  content_len : Nat
  width : Nat

/-- The placement rectangle handed to a child (src/layout.rs lines 152-157);
it shadows the incoming `area` inside the loop body. -/
def childRect (area : Rect) (st : ChildrenState) : Rect :=
  ⟨area.x + st.content_len % area.width, st.y, area.width, area.height⟩

mutual

/-- The `node_to_object` (src/layout.rs lines 188-193): text nodes are laid out by
`text_to_object`, elements by the body of `children_to_object`
(src/layout.rs lines 145-186): run the child loop from the initial state
(`y = area.y`, `height = 0`, `content_len = offset`, `width = 0`), apply the
final `if width < content_len { width = content_len }`, and build the block
box at `{area.x, area.y, width, height}`. -/
def node_to_object (node : StyledNode) (area : Rect) (offset : Nat) :
    LayoutObject :=
  match node with
  | .mk (.text t) _ _ => text_to_object t.data area offset
  | .mk (.element _) children _ =>
    let st := childrenLoop area offset ⟨area.y, 0, [], offset, 0⟩ children
    let width := if st.width < st.content_len then st.content_len else st.width
    .block ⟨area.x, area.y, width, st.height⟩ st.objects

/-- The child loop of `children_to_object` (src/layout.rs lines 151-172).  Each
child is laid out at `childRect area st` with the parent's original `offset`;
`content_len` grows by the child box's width; a block child advances `y`,
accumulates `height`, folds `content_len` into `width` and resets it; an inline
child recomputes `y` and `height` from `content_len` using the *shadowed*
rectangle (`carea`), whose `y` is the running row and whose `width` equals the
incoming `area.width`. -/
def childrenLoop (area : Rect) (offset : Nat) (st : ChildrenState) :
    List StyledNode → ChildrenState
  | [] => st
  | child :: rest =>
    let carea := childRect area st
    let object := node_to_object child carea offset
    let content_len := st.content_len + object.area.width
    let st' : ChildrenState :=
      if ! inline_node child then
        ⟨st.y + object.area.height, st.height + object.area.height,
         st.objects ++ [object], 0,
         if st.width < content_len then content_len else st.width⟩
      else
        ⟨carea.y + content_len / carea.width,
         (content_len + carea.width - 1) / carea.width,
         st.objects ++ [object], content_len, st.width⟩
    childrenLoop area offset st' rest

end

/-- The `children_to_object` (src/layout.rs lines 145-186), taking the node as in
the source and iterating over `node.children`. -/
def children_to_object (node : StyledNode) (area : Rect) (offset : Nat) :
    LayoutObject :=
  let st := childrenLoop area offset ⟨area.y, 0, [], offset, 0⟩ node.children
  let width := if st.width < st.content_len then st.content_len else st.width
  .block ⟨area.x, area.y, width, st.height⟩ st.objects


/-- One iteration of the child loop as a standalone step function, for stating
per-child properties; `childrenLoop_cons` proves it is the loop's step. -/
def childStep (area : Rect) (offset : Nat) (st : ChildrenState)
    (child : StyledNode) : ChildrenState :=
  let carea := childRect area st
  let object := node_to_object child carea offset
  let content_len := st.content_len + object.area.width
  if ! inline_node child then
    ⟨st.y + object.area.height, st.height + object.area.height,
     st.objects ++ [object], 0,
     if st.width < content_len then content_len else st.width⟩
  else
    ⟨carea.y + content_len / carea.width,
     (content_len + carea.width - 1) / carea.width,
     st.objects ++ [object], content_len, st.width⟩

/-! ## Containment checkers and concrete inputs -/

/-- Full rectangle containment: `c` lies inside `p` both horizontally and
vertically. -/
def rectContains (p c : Rect) : Bool :=
  decide (p.x ≤ c.x) && decide (c.x + c.width ≤ p.x + p.width) &&
  decide (p.y ≤ c.y) && decide (c.y + c.height ≤ p.y + p.height)

/-- Horizontal containment only: the x-extent of `c` lies inside that of `p`. -/
def rectContainsH (p c : Rect) : Bool :=
  decide (p.x ≤ c.x) && decide (c.x + c.width ≤ p.x + p.width)

mutual

/-- Every child box's (and text line's) rectangle is fully contained in its
parent box's rectangle, throughout the tree. -/
def boxNested : LayoutObject → Bool
  | .block a children =>
    children.all (fun c => rectContains a c.area) && boxNestedList children
  | .texts a lines => lines.all (fun l => rectContains a l.area)

/-- The `boxNested` on every member of a list. -/
def boxNestedList : List LayoutObject → Bool
  | [] => true
  | c :: cs => boxNested c && boxNestedList cs

end

mutual

/-- Every child box's (and text line's) rectangle is horizontally contained in
its parent box's rectangle, throughout the tree. -/
def boxNestedH : LayoutObject → Bool
  | .block a children =>
    children.all (fun c => rectContainsH a c.area) && boxNestedHList children
  | .texts a lines => lines.all (fun l => rectContainsH a l.area)

/-- The `boxNestedH` on every member of a list. -/
def boxNestedHList : List LayoutObject → Bool
  | [] => true
  | c :: cs => boxNestedH c && boxNestedHList cs

end

/-- A text of width-1 clusters (ordinary Latin-script characters). -/
def asciiText (s : List Char) : List Grapheme :=
  s.map (fun c => ⟨[c], 1⟩)

/-- A DOM text node holding width-1 clusters. -/
def mkText (s : String) : Node :=
  .mk (.text ⟨asciiText s.toList⟩) []

/-- A DOM `div` element with the given children and no attributes. -/
def mkDiv (cs : List Node) : Node :=
  .mk (.element ⟨"div", []⟩) cs

/-- A styled text node holding width-1 clusters (text nodes carry no
properties). -/
def styledText (s : String) : StyledNode :=
  .mk (.text ⟨asciiText s.toList⟩) [] []

/-- The document `<div><div>a</div>b</div>`: a block child followed by an
inline text sibling. -/
def blockThenInlineDom : Node :=
  mkDiv [mkDiv [mkText "a"], mkText "b"]

/-- The `blockThenInlineDom` resolved against the empty stylesheet (both `div`s
get the user-agent `display: block`). -/
def blockThenInlineStyled : StyledNode :=
  (to_styled_node blockThenInlineDom ⟨[]⟩).getD (.mk (.text ⟨[]⟩) [] [])

/-- A styled `div` whose children are the inline texts `aaaa` and `b`. -/
def twoInlineTexts : StyledNode :=
  .mk (.element ⟨"div", []⟩) [styledText "aaaa", styledText "b"]
    [("display", .keyword "block")]

/-- The `<p foo="bar">` with no children. -/
def pFooBar : Node :=
  .mk (.element ⟨"p", [("foo", "bar")]⟩) []

/-- The rule `p { color: blue }`. -/
def pColorBlue : Rule :=
  ⟨[.typeSelector "p"], [⟨"color", .keyword "blue"⟩]⟩

/-- The rule `p[foo=bar] { color: yellow }`. -/
def pFooBarColorYellow : Rule :=
  ⟨[.attributeSelector "p" .eq "foo" "bar"], [⟨"color", .keyword "yellow"⟩]⟩

/-! ## Helper lemmas -/

/-- The loop processes one child with `childStep` and continues. -/
theorem childrenLoop_cons (area : Rect) (offset : Nat) (st : ChildrenState)
    (child : StyledNode) (rest : List StyledNode) :
    childrenLoop area offset st (child :: rest) =
      childrenLoop area offset (childStep area offset st child) rest := by
  simp [childrenLoop, childStep]

/-- On element nodes, `node_to_object` is `children_to_object`
(src/layout.rs line 191). -/
theorem node_to_object_element (e : Element) (children : List StyledNode)
    (props : List (String × CSSValue)) (area : Rect) (offset : Nat) :
    node_to_object (.mk (.element e) children props) area offset =
      children_to_object (.mk (.element e) children props) area offset := by
  simp [node_to_object, children_to_object, StyledNode.children]

/-- The `strWidth` of a reversed run. -/
theorem strWidth_reverse (gs : List Grapheme) : strWidth gs.reverse = strWidth gs := by
  simp [strWidth, List.sum_reverse]

/-- The `strWidth` of a cons. -/
theorem strWidth_cons (g : Grapheme) (gs : List Grapheme) :
    strWidth (g :: gs) = g.w + strWidth gs := by
  simp [strWidth]

/-- The `strChars` distributes over append. -/
theorem strChars_append (a b : List Grapheme) :
    strChars (a ++ b) = strChars a ++ strChars b := by
  simp [strChars]

/-- The `strChars` of a flattened chunk list. -/
theorem strChars_flatten (L : List (List Grapheme)) :
    (L.map strChars).flatten = strChars L.flatten := by
  induction L with
  | nil => simp [strChars]
  | cons c rest ih => simp [strChars_append, ih]

/-- The chunks produced by the wrapping loop concatenate to the pending chunk
followed by the remaining input. -/
theorem splitGo_flatten (width : Nat) (gs : List Grapheme) :
    ∀ (acc : List Grapheme) (curr : Nat),
      (splitGo width gs acc curr).flatten = acc.reverse ++ gs := by
  induction gs with
  | nil => intro acc curr; simp [splitGo]
  | cons g gs ih =>
    intro acc curr
    by_cases h : width < curr + g.w <;> simp [splitGo, h, ih]

/-- The wrapping loop never returns an empty chunk list. -/
theorem splitGo_ne_nil (width : Nat) (gs : List Grapheme) :
    ∀ (acc : List Grapheme) (curr : Nat), splitGo width gs acc curr ≠ [] := by
  induction gs with
  | nil => intro acc curr; simp [splitGo]
  | cons g gs ih =>
    intro acc curr
    by_cases h : width < curr + g.w <;> simp [splitGo, h, ih]

/-- When the pending chunk is nonempty, every chunk the loop produces is
nonempty. -/
theorem splitGo_chunks_ne_nil (width : Nat) (gs : List Grapheme) :
    ∀ (acc : List Grapheme) (curr : Nat), acc ≠ [] →
      ∀ c ∈ splitGo width gs acc curr, c ≠ [] := by
  induction gs with
  | nil =>
    intro acc curr hacc c hc
    simp [splitGo] at hc
    simpa [hc] using hacc
  | cons g gs ih =>
    intro acc curr hacc c hc
    by_cases h : width < curr + g.w
    · simp [splitGo, h] at hc
      rcases hc with hc | hc
      · simpa [hc] using hacc
      · exact ih [g] g.w (by simp) c hc
    · simp [splitGo, h] at hc
      exact ih (g :: acc) (curr + g.w) (by simp) c hc

/-- Width bound on the chunks: if every remaining cluster fits in `width` and
the pending chunk's width is at most both `width` and the running counter,
every produced chunk has display width at most `width`. -/
theorem splitGo_width_le (width : Nat) (gs : List Grapheme) :
    ∀ (acc : List Grapheme) (curr : Nat),
      (∀ g ∈ gs, g.w ≤ width) → strWidth acc ≤ width → strWidth acc ≤ curr →
      ∀ c ∈ splitGo width gs acc curr, strWidth c ≤ width := by
  induction gs with
  | nil =>
    intro acc curr _ h1 _ c hc
    simp [splitGo] at hc
    simpa [hc, strWidth_reverse] using h1
  | cons g gs ih =>
    intro acc curr hg h1 h2 c hc
    by_cases h : width < curr + g.w
    · simp [splitGo, h] at hc
      rcases hc with hc | hc
      · simpa [hc, strWidth_reverse] using h1
      · refine ih [g] g.w (fun x hx => hg x (by simp [hx])) ?_ ?_ c hc
        · simpa [strWidth, Grapheme.w] using hg g (by simp)
        · simp [strWidth]
    · simp [splitGo, h] at hc
      have hfit : curr + g.w ≤ width := Nat.le_of_not_lt h
      refine ih (g :: acc) (curr + g.w) (fun x hx => hg x (by simp [hx])) ?_ ?_ c hc
      · calc strWidth (g :: acc) = g.w + strWidth acc := strWidth_cons g acc
          _ ≤ g.w + curr := by omega
          _ ≤ width := by omega
      · rw [strWidth_cons]; omega

/-- The widths of the line records are the chunk widths. -/
theorem textLoop_widths (x : Nat) (chunks : List (List Grapheme)) :
    ∀ y, (textLoop x y chunks).map (fun l => l.area.width) = chunks.map strWidth := by
  induction chunks with
  | nil => intro y; simp [textLoop]
  | cons d ds ih => intro y; simp [textLoop, ih]

/-- Shape of a line record produced by the text loop. -/
theorem textLoop_mem (x : Nat) (chunks : List (List Grapheme)) :
    ∀ y, ∀ l ∈ textLoop x y chunks,
      l.data ∈ chunks ∧ l.area.width = strWidth l.data ∧ l.area.x = x ∧
      l.area.height = 1 := by
  induction chunks with
  | nil => intro y l hl; simp [textLoop] at hl
  | cons d ds ih =>
    intro y l hl
    simp only [textLoop, List.mem_cons] at hl
    rcases hl with hl | hl
    · subst hl; simp
    · have h := ih (y + 1) l hl
      exact ⟨List.mem_cons_of_mem _ h.1, h.2.1, h.2.2.1, h.2.2.2⟩

/-- The `get` after `insert` at the same key. -/
theorem propsGet_insert_self (m : PropMap) (k : String) (v : Nat × CSSValue) :
    propsGet (propsInsert m k v) k = some v := by
  induction m with
  | nil => simp [propsInsert, propsGet]
  | cons kv rest ih =>
    by_cases h : kv.1 = k
    · simp [propsInsert, propsGet, h]
    · simp [propsInsert, propsGet, h, ih]

/-- The `zip` ignores appended extra entries on the left when the right list is
not longer. -/
theorem zip_append_of_le {α β : Type} (l1 : List α) (l2 : List β)
    (extra : List α) (h : l2.length ≤ l1.length) :
    (l1 ++ extra).zip l2 = l1.zip l2 := by
  induction l1 generalizing l2 with
  | nil =>
    cases l2 with
    | nil => simp
    | cons b bs => simp at h
  | cons a as ih =>
    cases l2 with
    | nil => simp
    | cons b bs =>
      simp only [List.cons_append, List.zip_cons_cons, List.cons.injEq, true_and]
      exact ih bs (by simpa using h)

/-- The `zip` ignores appended extra entries on the right when the left list is
not longer. -/
theorem zip_append_right_of_le {α β : Type} (l1 : List α) (l2 : List β)
    (extra : List β) (h : l1.length ≤ l2.length) :
    l1.zip (l2 ++ extra) = l1.zip l2 := by
  induction l1 generalizing l2 with
  | nil => simp
  | cons a as ih =>
    cases l2 with
    | nil => simp at h
    | cons b bs =>
      simp only [List.cons_append, List.zip_cons_cons, List.cons.injEq, true_and]
      exact ih bs (by simpa using h)

/-- The `zip` only consumes each list up to the other's length. -/
theorem zip_take_take {α β : Type} (l1 : List α) (l2 : List β) :
    l1.zip l2 = (l1.take l2.length).zip (l2.take l1.length) := by
  induction l1 generalizing l2 with
  | nil => simp
  | cons a as ih =>
    cases l2 with
    | nil => simp
    | cons b bs => simp [ih bs]

/-- The `to_styled_children` is the `filter_map` of `to_styled_node` over the
child list. -/
theorem to_styled_children_eq_filterMap (nodes : List Node) (ss : Stylesheet) :
    to_styled_children nodes ss = nodes.filterMap (fun n => to_styled_node n ss) := by
  induction nodes with
  | nil => simp [to_styled_children]
  | cons n rest ih =>
    rw [to_styled_children]
    cases h : to_styled_node n ss <;> simp [h, ih]

/-! ## Claims -/

/-- C10: For every input string, width, and offset, `split_string_by_width`
returns a non-empty list of slices whose concatenation, in order, equals the
original input string exactly (no characters dropped, duplicated, or reordered
by wrapping); the chunks concatenate to the original both as cluster runs and
as character sequences. -/
theorem C10_split_concat (text : List Grapheme) (width offset : Nat) :
    split_string_by_width text width offset ≠ [] ∧
    (split_string_by_width text width offset).flatten = text ∧
    ((split_string_by_width text width offset).map strChars).flatten =
      strChars text := by
  refine ⟨splitGo_ne_nil width text [] offset, ?_, ?_⟩
  · simpa using splitGo_flatten width text [] offset
  · rw [strChars_flatten]
    simp [split_string_by_width, splitGo_flatten width text [] offset]

/-- C1 (counterexample): laying out the two-cluster text `ab` in a placement
rectangle of width 1 produces two lines, but the leaf's bounding box height is
1, not the number of lines produced. -/
theorem C1_counterexample :
    (text_to_object (asciiText ['a', 'b']) ⟨0, 0, 1, 10⟩ 0).area.height ≠
      (text_to_object (asciiText ['a', 'b']) ⟨0, 0, 1, 10⟩ 0).lines.length := by
  decide

/-- C1 (amended): for every text leaf laid out by `text_to_object` with a
placement rectangle and an offset, the leaf's own bounding box has width equal
to the sum of the display widths of all produced lines, and height equal to 1
(a constant, regardless of how many lines are produced). -/
theorem C1_text_box (text : List Grapheme) (area : Rect) (offset : Nat) :
    (text_to_object text area offset).area.width =
      ((text_to_object text area offset).lines.map (fun l => l.area.width)).sum ∧
    (text_to_object text area offset).area.height = 1 := by
  constructor
  · simp [text_to_object, LayoutObject.area, LayoutObject.lines,
      textLoop_widths]
  · simp [text_to_object, LayoutObject.area]

/-- C3 (counterexample): a single cluster of display width 2 (an East-Asian
character) laid out in a viewport of width 1 yields a line rectangle of width
2, exceeding the declared viewport width. -/
theorem C3_counterexample :
    ¬ (∀ l ∈ (text_to_object [⟨['あ'], 2⟩] ⟨0, 0, 1, 5⟩ 0).lines,
        l.area.width ≤ (⟨0, 0, 1, 5⟩ : Rect).width) := by
  decide

/-- C3 (amended): for every text whose grapheme clusters each have display
width at most the viewport width, every viewport width ≥ 1, and every offset,
each line rectangle produced by `text_to_object` / `split_string_by_width` has
display width at most the declared viewport width. -/
theorem C3_line_width_le (text : List Grapheme) (area : Rect) (offset : Nat)
    (hw : 1 ≤ area.width) (hg : ∀ g ∈ text, g.w ≤ area.width) :
    ∀ l ∈ (text_to_object text area offset).lines, l.area.width ≤ area.width := by
  intro l hl
  have hmem := textLoop_mem area.x (split_string_by_width text area.width offset)
    area.y l (by simpa [text_to_object, LayoutObject.lines] using hl)
  rw [hmem.2.1]
  exact splitGo_width_le area.width text [] offset hg (by simp [strWidth])
    (by simp [strWidth]) l.data hmem.1

/-- Witness for C3: the amended theorem applied to the text `ab` of width-1
clusters in a viewport of width 1, at the first produced line. -/
theorem C3_witness :
    (⟨⟨0, 0, 1, 1⟩, [⟨['a'], 1⟩]⟩ : TextLine).area.width ≤
      (⟨0, 0, 1, 10⟩ : Rect).width :=
  C3_line_width_le (asciiText ['a', 'b']) ⟨0, 0, 1, 10⟩ 0 (by decide)
    (by decide) ⟨⟨0, 0, 1, 1⟩, [⟨['a'], 1⟩]⟩ (by decide)

/-- C9 (counterexample): with offset 5 and width 3, the very first cluster
already overflows, so the loop closes the current line before it and produces
an empty first line: `split_string_by_width "a" 3 5 = ["", "a"]`. -/
theorem C9_counterexample :
    ¬ (∀ c ∈ split_string_by_width (asciiText ['a']) 3 5, c ≠ []) := by
  decide

/-- C9 (amended): the line-wrapping walk closes the current line immediately
before any cluster whose width added to the running counter would exceed the
area width, then restarts the counter at exactly that cluster's display width;
as a result no produced line other than the first is empty, and the first line
is empty exactly when the text is empty or the offset plus the first cluster's
width already exceeds the area width.  (Clusters are never split: every chunk
is a contiguous run of whole clusters by construction, cf. `C10`.) -/
theorem C9_wrap_lines (text : List Grapheme) (width offset : Nat) :
    (∀ g gs acc curr, width < curr + g.w →
      splitGo width (g :: gs) acc curr = acc.reverse :: splitGo width gs [g] g.w) ∧
    (∀ g gs acc curr, ¬ width < curr + g.w →
      splitGo width (g :: gs) acc curr = splitGo width gs (g :: acc) (curr + g.w)) ∧
    (∀ c ∈ (split_string_by_width text width offset).tail, c ≠ []) ∧
    ((split_string_by_width text width offset).head? = some [] ↔
      text = [] ∨ ∃ g gs, text = g :: gs ∧ width < offset + g.w) := by
  refine ⟨?_, ?_, ?_, ?_⟩
  · intro g gs acc curr h; simp [splitGo, h]
  · intro g gs acc curr h; simp [splitGo, h]
  · intro c hc
    match htext : text with
    | [] => simp [split_string_by_width, splitGo] at hc
    | g :: gs =>
      by_cases h : width < offset + g.w
      · rw [split_string_by_width, splitGo, if_pos h] at hc
        simp only [List.tail_cons] at hc
        exact splitGo_chunks_ne_nil width gs [g] g.w (by simp) c hc
      · rw [split_string_by_width, splitGo, if_neg h] at hc
        exact splitGo_chunks_ne_nil width gs [g] (offset + g.w) (by simp) c
          (List.mem_of_mem_tail hc)
  · match htext : text with
    | [] => simp [split_string_by_width, splitGo]
    | g :: gs =>
      by_cases h : width < offset + g.w
      · rw [split_string_by_width, splitGo, if_pos h]
        simp only [List.head?_cons, Option.some.injEq]
        constructor
        · intro _; exact Or.inr ⟨g, gs, rfl, h⟩
        · intro _; rfl
      · rw [split_string_by_width, splitGo, if_neg h]
        constructor
        · intro hhead
          have hne := splitGo_chunks_ne_nil width gs [g] (offset + g.w)
            (by simp) [] (List.mem_of_mem_head? hhead)
          exact absurd rfl hne
        · rintro (hnil | ⟨g', gs', heq, hlt⟩)
          · exact absurd hnil (by simp)
          · injection heq with h1 h2
            subst h1
            exact absurd hlt h

/-- Witness for C9: the amended theorem applied to the text `ab` wrapped at
width 1 with offset 0, whose second line `b` is nonempty. -/
theorem C9_witness : ([⟨['b'], 1⟩] : List Grapheme) ≠ [] :=
  (C9_wrap_lines (asciiText ['a', 'b']) 1 0).2.2.1 [⟨['b'], 1⟩] (by decide)

/-- C5: during style resolution, when a paired (selector, declaration) targets
a property name already recorded with specificity `sprev`, the recorded value
is overwritten exactly when the candidate selector's specificity is `≥ sprev`
(so on equal specificity the later-scanned rule wins, and a lower-specificity
later candidate leaves the recorded value unchanged). -/
theorem C5_cascade_overwrite (props : PropMap) (sel : Selector)
    (decl : Declaration) (sprev : Nat) (v : CSSValue)
    (h : propsGet props decl.name = some (sprev, v)) :
    propsGet (applyDecl props sel decl) decl.name =
      if sprev ≤ sel.specificity then some (sel.specificity, decl.value)
      else some (sprev, v) := by
  unfold applyDecl
  rw [h]
  by_cases hle : sprev ≤ sel.specificity
  · simp [hle, propsGet_insert_self]
  · simp [hle, h]

/-- Witness for C5: a recorded `color` of specificity 1 is overwritten by a
class-selector candidate of specificity 10. -/
theorem C5_witness :
    propsGet (applyDecl [("color", (1, CSSValue.keyword "blue"))]
        (.classSelector "x") ⟨"color", .keyword "red"⟩) "color" =
      if 1 ≤ (SimpleSelector.classSelector "x").specificity
      then some ((SimpleSelector.classSelector "x").specificity,
        CSSValue.keyword "red")
      else some (1, CSSValue.keyword "blue") :=
  C5_cascade_overwrite [("color", (1, CSSValue.keyword "blue"))]
    (.classSelector "x") ⟨"color", .keyword "red"⟩ 1 (CSSValue.keyword "blue")
    (by decide)

/-- C6: for every matched rule, style resolution pairs the rule's selector
list and declaration list positionally (`zip`, index i with index i),
iterating only up to the shorter of the two lengths; unpaired extra selectors
or declarations have no effect on the resolved properties. -/
theorem C6_positional_pairing (props : PropMap) (sels : List Selector)
    (decls : List Declaration) (extraS : List Selector)
    (extraD : List Declaration) :
    (decls.length ≤ sels.length →
      applyRule props ⟨sels ++ extraS, decls⟩ = applyRule props ⟨sels, decls⟩) ∧
    (sels.length ≤ decls.length →
      applyRule props ⟨sels, decls ++ extraD⟩ = applyRule props ⟨sels, decls⟩) ∧
    applyRule props ⟨sels, decls⟩ =
      applyRule props ⟨sels.take decls.length, decls.take sels.length⟩ := by
  refine ⟨fun h => ?_, fun h => ?_, ?_⟩
  · simp [applyRule, zip_append_of_le sels decls extraS h]
  · simp [applyRule, zip_append_right_of_le sels decls extraD h]
  · have := zip_take_take sels decls
    simp [applyRule, ← this]

/-- Witness for C6: a rule with two selectors and one declaration behaves as
if the extra selector were absent. -/
theorem C6_witness :
    applyRule [] ⟨[SimpleSelector.typeSelector "p"] ++ [.classSelector "x"],
        [⟨"color", CSSValue.keyword "blue"⟩]⟩ =
      applyRule [] ⟨[SimpleSelector.typeSelector "p"],
        [⟨"color", CSSValue.keyword "blue"⟩]⟩ :=
  (C6_positional_pairing [] [SimpleSelector.typeSelector "p"]
    [⟨"color", CSSValue.keyword "blue"⟩] [.classSelector "x"] []).1 (by decide)

/-- C7: `to_styled_node` returns `none` exactly when the node's resolved
`display` property is the keyword `none` (a fact of the node's own resolution
only, so the node and its entire subtree are then absent from the styled tree
regardless of any descendant's own rules); and every child of a returned
styled node is the in-order `filter_map` of the children's own resolutions, so
descendants resolving to `none` are omitted while the remaining children keep
their original order. -/
theorem C7_display_none_prunes (node : Node) (ss : Stylesheet) :
    (to_styled_node node ss = none ↔
      (propsGet (resolvedProps node ss) "display").map Prod.snd =
        some (CSSValue.keyword "none")) ∧
    (∀ sn, to_styled_node node ss = some sn →
      sn.children = node.children.filterMap (fun c => to_styled_node c ss)) := by
  cases node with
  | mk nt cs =>
    constructor
    · rw [to_styled_node]
      by_cases h : (propsGet (resolvedProps (.mk nt cs) ss) "display").map
          Prod.snd = some (CSSValue.keyword "none") <;> simp [h]
    · intro sn hsn
      rw [to_styled_node] at hsn
      by_cases h : (propsGet (resolvedProps (.mk nt cs) ss) "display").map
          Prod.snd = some (CSSValue.keyword "none")
      · simp [h] at hsn
      · simp only [h, if_false] at hsn
        cases hsn
        simpa [StyledNode.children, Node.children] using
          to_styled_children_eq_filterMap cs ss

/-- Witness for C7: a childless `div` resolved against the empty stylesheet is
kept, and its styled children are the (empty) filtered child resolutions. -/
theorem C7_witness :
    (StyledNode.mk (.element ⟨"div", []⟩) []
        [("display", CSSValue.keyword "block"),
         ("font-weight", CSSValue.keyword "normal")]).children =
      (mkDiv []).children.filterMap (fun c => to_styled_node c ⟨[]⟩) :=
  (C7_display_none_prunes (mkDiv []) ⟨[]⟩).2 _ rfl

/-- C8: `specificity` returns exactly 0 for a Universal selector, 1 for a Type
selector, 10 for an Attribute selector, and 10 for a Class selector;
consequently for the rules `p {color:blue}` and `p[foo=bar] {color:yellow}`
applied to `<p foo="bar">`, the resolved `color` is `yellow` for both orders
of the two rules. -/
theorem C8_specificity_yellow :
    SimpleSelector.universalSelector.specificity = 0 ∧
    (∀ t, (SimpleSelector.typeSelector t).specificity = 1) ∧
    (∀ t op a v, (SimpleSelector.attributeSelector t op a v).specificity = 10) ∧
    (∀ c, (SimpleSelector.classSelector c).specificity = 10) ∧
    (propsGet (resolvedProps pFooBar ⟨[pColorBlue, pFooBarColorYellow]⟩)
        "color").map Prod.snd = some (CSSValue.keyword "yellow") ∧
    (propsGet (resolvedProps pFooBar ⟨[pFooBarColorYellow, pColorBlue]⟩)
        "color").map Prod.snd = some (CSSValue.keyword "yellow") :=
  ⟨rfl, fun _ => rfl, fun _ _ _ _ => rfl, fun _ => rfl, by decide, by decide⟩

/-- C2 (counterexample): in a composite of width 3 holding the two inline
texts `aaaa` and `b`, after processing the second (inline) child the running
row is 2, but `area.y + content_len div area.width = 0 + 5 / 3 = 1` for the
incoming placement rectangle `area = {0, 0, 3, 10}`: the recompute uses the
rectangle shadowed inside the loop (whose `y` is the running row), not the
composite call's incoming rectangle. -/
theorem C2_counterexample :
    inline_node (styledText "b") = true ∧
    (childStep ⟨0, 0, 3, 10⟩ 0
        (childStep ⟨0, 0, 3, 10⟩ 0 ⟨0, 0, [], 0, 0⟩ (styledText "aaaa"))
        (styledText "b")).y ≠
      0 + (childStep ⟨0, 0, 3, 10⟩ 0
        (childStep ⟨0, 0, 3, 10⟩ 0 ⟨0, 0, [], 0, 0⟩ (styledText "aaaa"))
        (styledText "b")).content_len / 3 := by
  decide

/-- C2 (amended): in `children_to_object`, after processing each inline child
(with `content_len` already incremented by that child's box width), the
current row is recomputed as `y = r.y + content_len div area.width` and the
running height as `height = (content_len + area.width - 1) div area.width`
(ceiling division for `area.width ≥ 1`), where `r = childRect area st` is the
placement rectangle the child was laid out with: `r.y` is the running row
before this child — not the composite call's incoming `area.y` — and
`r.width` equals the incoming `area.width`. -/
theorem C2_inline_recompute (area : Rect) (offset : Nat) (st : ChildrenState)
    (child : StyledNode) (h : inline_node child = true) :
    (childStep area offset st child).content_len =
      st.content_len + (node_to_object child (childRect area st) offset).area.width ∧
    (childStep area offset st child).y =
      (childRect area st).y + (childStep area offset st child).content_len / area.width ∧
    (childStep area offset st child).height =
      ((childStep area offset st child).content_len + area.width - 1) / area.width ∧
    (childRect area st).y = st.y ∧ (childRect area st).width = area.width := by
  simp [childStep, childRect, h]

/-- Witness for C2: the amended theorem applied to the inline text `b`
processed from the initial loop state of a width-3 composite. -/
theorem C2_witness :
    (childStep ⟨0, 0, 3, 10⟩ 0 ⟨0, 0, [], 0, 0⟩ (styledText "b")).content_len =
      (0 : Nat) + (node_to_object (styledText "b")
        (childRect ⟨0, 0, 3, 10⟩ ⟨0, 0, [], 0, 0⟩) 0).area.width ∧
    (childStep ⟨0, 0, 3, 10⟩ 0 ⟨0, 0, [], 0, 0⟩ (styledText "b")).y =
      (childRect ⟨0, 0, 3, 10⟩ ⟨0, 0, [], 0, 0⟩).y +
        (childStep ⟨0, 0, 3, 10⟩ 0 ⟨0, 0, [], 0, 0⟩ (styledText "b")).content_len / 3 ∧
    (childStep ⟨0, 0, 3, 10⟩ 0 ⟨0, 0, [], 0, 0⟩ (styledText "b")).height =
      ((childStep ⟨0, 0, 3, 10⟩ 0 ⟨0, 0, [], 0, 0⟩ (styledText "b")).content_len
        + 3 - 1) / 3 ∧
    (childRect ⟨0, 0, 3, 10⟩ ⟨0, 0, [], 0, 0⟩).y = 0 ∧
    (childRect ⟨0, 0, 3, 10⟩ ⟨0, 0, [], 0, 0⟩).width = 3 :=
  C2_inline_recompute ⟨0, 0, 3, 10⟩ 0 ⟨0, 0, [], 0, 0⟩ (styledText "b")
    (by decide)

/-- Resolving `if _ < _` to `max`. -/
theorem ite_lt_eq_max (a b : Nat) : (if a < b then b else a) = max a b := by
  split <;> omega

/-- A laid-out box sits at the top-left corner of its placement rectangle. -/
theorem node_to_object_area (n : StyledNode) (area : Rect) (offset : Nat) :
    (node_to_object n area offset).area.x = area.x ∧
    (node_to_object n area offset).area.y = area.y := by
  cases n with
  | mk nt cs ps =>
    cases nt with
    | text t => simp [node_to_object, text_to_object, LayoutObject.area]
    | element e => simp [node_to_object, LayoutObject.area]

/-- The child step appends exactly the child's box to the output list. -/
theorem childStep_objects (area : Rect) (offset : Nat) (st : ChildrenState)
    (c : StyledNode) :
    (childStep area offset st c).objects =
      st.objects ++ [node_to_object c (childRect area st) offset] := by
  simp only [childStep]
  split <;> rfl

/-- After one child step, `max width content_len` is `max` of the old `width`
and the incremented `content_len`, in both the block and the inline branch. -/
theorem childStep_bound (area : Rect) (offset : Nat) (st : ChildrenState)
    (c : StyledNode) :
    max (childStep area offset st c).width (childStep area offset st c).content_len =
      max st.width
        (st.content_len + (node_to_object c (childRect area st) offset).area.width) := by
  simp only [childStep]
  split
  · simp [ite_lt_eq_max]
  · simp

/-- The `max width content_len` never decreases across the child loop. -/
theorem childrenLoop_bound_mono (area : Rect) (offset : Nat)
    (cs : List StyledNode) :
    ∀ st : ChildrenState,
      max st.width st.content_len ≤
        max (childrenLoop area offset st cs).width
          (childrenLoop area offset st cs).content_len := by
  induction cs with
  | nil => intro st; simp [childrenLoop]
  | cons c rest ih =>
    intro st
    rw [childrenLoop_cons]
    refine le_trans ?_ (ih (childStep area offset st c))
    rw [childStep_bound]
    exact max_le_max le_rfl (Nat.le_add_right _ _)

/-- Loop invariant: every output box starts at or right of `area.x` and its
x-extent stays within `area.x + max width content_len`. -/
theorem childrenLoop_objects_bound (area : Rect) (offset : Nat)
    (cs : List StyledNode) :
    ∀ st : ChildrenState,
      (∀ o ∈ st.objects, area.x ≤ o.area.x ∧
        o.area.x + o.area.width ≤ area.x + max st.width st.content_len) →
      ∀ o ∈ (childrenLoop area offset st cs).objects, area.x ≤ o.area.x ∧
        o.area.x + o.area.width ≤ area.x +
          max (childrenLoop area offset st cs).width
            (childrenLoop area offset st cs).content_len := by
  induction cs with
  | nil => intro st h; simpa [childrenLoop] using h
  | cons c rest ih =>
    intro st h
    rw [childrenLoop_cons]
    apply ih
    intro o ho
    rw [childStep_objects] at ho
    rcases List.mem_append.1 ho with ho | ho
    · have h1 := h o ho
      have h2 : max st.width st.content_len ≤
          max (childStep area offset st c).width
            (childStep area offset st c).content_len := by
        rw [childStep_bound]
        exact max_le_max le_rfl (Nat.le_add_right _ _)
      exact ⟨h1.1, by omega⟩
    · have ho' : o = node_to_object c (childRect area st) offset := by
        simpa using ho
      subst ho'
      have hx := (node_to_object_area c (childRect area st) offset).1
      rw [childStep_bound]
      constructor
      · rw [hx]
        exact Nat.le_add_right _ _
      · rw [hx]
        have hmod : st.content_len % area.width ≤ st.content_len :=
          Nat.mod_le _ _
        have hcl : st.content_len +
            (node_to_object c (childRect area st) offset).area.width ≤
            max st.width (st.content_len +
              (node_to_object c (childRect area st) offset).area.width) :=
          le_max_right _ _
        simp only [childRect]
        omega

/-- The `boxNestedHList` over a snoc. -/
theorem boxNestedHList_append (xs : List LayoutObject) (o : LayoutObject) :
    boxNestedHList (xs ++ [o]) = (boxNestedHList xs && boxNestedH o) := by
  induction xs with
  | nil => simp [boxNestedHList]
  | cons x xs ih => simp [boxNestedHList, ih, Bool.and_assoc]

mutual

/-- Every box tree the layout engine returns is horizontally nested. -/
theorem node_boxNestedH (n : StyledNode) (area : Rect) (offset : Nat) :
    boxNestedH (node_to_object n area offset) = true := by
  cases n with
  | mk nt cs ps =>
    cases nt with
    | text t =>
      simp only [node_to_object, text_to_object, boxNestedH, List.all_eq_true]
      intro l hl
      have hmem := textLoop_mem area.x
        (split_string_by_width t.data area.width offset) area.y l hl
      simp only [rectContainsH, Bool.and_eq_true, decide_eq_true_eq]
      refine ⟨le_of_eq hmem.2.2.1.symm, ?_⟩
      rw [hmem.2.2.1, hmem.2.1]
      have hle : strWidth l.data ≤
          ((split_string_by_width t.data area.width offset).map strWidth).sum :=
        List.single_le_sum (fun x _ => Nat.zero_le x) _
          (List.mem_map_of_mem strWidth hmem.1)
      omega
    | element e =>
      simp only [node_to_object, boxNestedH, Bool.and_eq_true, List.all_eq_true]
      constructor
      · intro o ho
        have hb := childrenLoop_objects_bound area offset cs
          ⟨area.y, 0, [], offset, 0⟩ (by simp) o ho
        simp only [rectContainsH, Bool.and_eq_true, decide_eq_true_eq]
        refine ⟨hb.1, ?_⟩
        rw [ite_lt_eq_max]
        exact hb.2
      · exact loop_boxNestedH cs area offset ⟨area.y, 0, [], offset, 0⟩ rfl

/-- If the accumulated boxes are horizontally nested, so are all boxes after
running the child loop. -/
theorem loop_boxNestedH (cs : List StyledNode) (area : Rect) (offset : Nat)
    (st : ChildrenState) (h : boxNestedHList st.objects = true) :
    boxNestedHList (childrenLoop area offset st cs).objects = true := by
  match cs with
  | [] => simpa [childrenLoop] using h
  | c :: rest =>
    rw [childrenLoop_cons]
    apply loop_boxNestedH rest area offset (childStep area offset st c)
    rw [childStep_objects, boxNestedHList_append, h,
      node_boxNestedH c (childRect area st) offset]
    rfl

end

/-- C4 (counterexample): laying out `<div><div>a</div>b</div>` (resolved
against the empty stylesheet) in the viewport `{0, 0, 80, 40}` produces an
outer block of height 1 whose second child (the inline text `b`) sits at row
1, outside the parent rectangle: full rectangle containment fails. -/
theorem C4_counterexample :
    boxNested (node_to_object blockThenInlineStyled ⟨0, 0, 80, 40⟩ 0) = false := by
  decide

/-- C4 (amended): in every box tree returned by layout (`node_to_object`) for
a placement rectangle of width ≥ 1, every child box's rectangle (and every
text line's rectangle) is horizontally contained in its parent box's
rectangle — `parent.x ≤ child.x` and
`child.x + child.width ≤ parent.x + parent.width` — throughout the tree.
Vertical containment does not hold in general. -/
theorem C4_horizontal_nesting (n : StyledNode) (area : Rect) (offset : Nat)
    (hw : 1 ≤ area.width) :
    boxNestedH (node_to_object n area offset) = true :=
  node_boxNestedH n area offset

/-- Witness for C4: the amended theorem applied to the block-then-inline
document in an 80-column viewport. -/
theorem C4_witness :
    boxNestedH (node_to_object blockThenInlineStyled ⟨0, 0, 80, 40⟩ 0) = true :=
  C4_horizontal_nesting blockThenInlineStyled ⟨0, 0, 80, 40⟩ 0 (by decide)

end Wev
